import Mathlib

/-!
Shallow embedding of the PharmAI dashboard's aggregation pipeline (src/app.py,
lines 68-146): the dataframe filter, the KPI computations (`total_events`,
`top_event_row`, `unique_pt`, `growth`), the top-10 ranking and the yearly trend
series, together with theorems settling the spec's claims about them.
-/

/-- A row of the `global_safety_summary.parquet` table: the columns read by the
dashboard are `drugname`, `pt`, `year` and `count` (a non-negative report count). -/
structure EventRecord where
  drugname : String
  pt : String
  year : Int
  count : Nat
deriving DecidableEq, Repr

namespace PharmAI

/-- Embeds the boolean mask of app.py line 71:
`mask = (df['drugname'] == selected_drug) & (df['year'].between(y1, y2))`;
pandas `between` is inclusive on both ends by default. -/
def rowMask (drug : String) (y1 y2 : Int) (r : EventRecord) : Bool :=
  r.drugname == drug && decide (y1 ≤ r.year) && decide (r.year ≤ y2)

/-- Embeds `data = df[mask]` (app.py line 72): boolean-mask selection keeps exactly
the rows satisfying the mask, in input row order. -/
def filterData (df : List EventRecord) (drug : String) (y1 y2 : Int) : List EventRecord :=
  df.filter (rowMask drug y1 y2)

/-- Embeds `total_events = data['count'].sum()` (app.py line 95). -/
def total_events (data : List EventRecord) : Nat :=
  (data.map EventRecord.count).sum

/-- Embeds `unique_pt = data['pt'].nunique()` (app.py line 97): the number of
distinct preferred terms among the filtered rows. -/
def unique_pt (data : List EventRecord) : Nat :=
  ((data.map EventRecord.pt).dedup).length

/-- Embeds `top_event_row = data.loc[data['count'].idxmax()]` (app.py line 96):
pandas `idxmax` returns the label of the first row attaining the maximum `count`
(and raises on an empty frame, modelled as `none`); `.loc` then recovers that row. -/
def top_event_row (data : List EventRecord) : Option EventRecord :=
  match data with
  | [] => none
  | r :: rs => some (rs.foldl (fun best x => if best.count < x.count then x else best) r)

/-- The sorted distinct keys of `data.groupby('year')`: pandas `groupby` with its
default `sort=True` lists one group per distinct key, keys in ascending order. -/
def yearKeys (data : List EventRecord) : List Int :=
  List.insertionSort (· ≤ ·) ((data.map EventRecord.year).dedup)

/-- The summed `count` of one year group. -/
def yearSum (data : List EventRecord) (y : Int) : Nat :=
  ((data.filter fun r => r.year == y).map EventRecord.count).sum

/-- Embeds `yearly_counts = data.groupby('year')['count'].sum()` (app.py line 100;
`trend_data`, line 137, is the same expression): one (year, summed count) entry per
distinct year, ascending by year. -/
def yearly_counts (data : List EventRecord) : List (Int × Nat) :=
  (yearKeys data).map fun y => (y, yearSum data y)

/-- Outcome of the growth KPI (app.py lines 101-107). `na` is the `else` branch's
literal "N/A" string. The remaining constructors model numpy float64 division of
the int64 yearly sums: division by zero does not raise, it emits a RuntimeWarning
and yields `inf` (positive numerator), `-inf` (negative numerator) or `nan` (0/0);
finite quotients are modelled as exact rationals (float rounding abstracted). -/
inductive GrowthOutcome
  | na
  | value (g : ℚ)
  | posInf
  | negInf
  | nan
deriving DecidableEq, Repr

/-- Embeds app.py lines 101-107:
`growth = ((yearly_counts.iloc[-1] - yearly_counts.iloc[0]) / yearly_counts.iloc[0]) * 100`
guarded by `if len(yearly_counts) > 1`, else "N/A". `iloc[0]` and `iloc[-1]` are the
first and last entries of the ascending-by-year grouped series. -/
def growth (data : List EventRecord) : GrowthOutcome :=
  if 1 < (yearly_counts data).length then
    if ((((yearly_counts data).head?.getD (0, 0)).2 : ℚ)) = 0 then
      if ((((yearly_counts data).getLast?.getD (0, 0)).2 : ℚ)) = 0 then .nan
      else .posInf
    else
      .value ((((((yearly_counts data).getLast?.getD (0, 0)).2 : ℚ))
          - ((((yearly_counts data).head?.getD (0, 0)).2 : ℚ)))
        / ((((yearly_counts data).head?.getD (0, 0)).2 : ℚ)) * 100)
  else .na

/-- The sorted distinct keys of `data.groupby('pt')` (ascending, as for years;
pandas orders object-dtype string keys lexicographically). The comparison is
written on the underlying character lists, which is `String`'s lexicographic `≤`
(`String.le_iff_toList_le`). -/
def ptKeys (data : List EventRecord) : List String :=
  List.insertionSort (fun a b => a.data ≤ b.data) ((data.map EventRecord.pt).dedup)

/-- The summed `count` of one preferred-term group. -/
def ptSum (data : List EventRecord) (t : String) : Nat :=
  ((data.filter fun r => r.pt == t).map EventRecord.count).sum

/-- The grouped series `data.groupby('pt')['count'].sum()` (app.py line 123):
one (term, summed count) entry per distinct term, keys ascending. -/
def ptCounts (data : List EventRecord) : List (String × Nat) :=
  (ptKeys data).map fun t => (t, ptSum data t)

/-- Embeds pandas `Series.nlargest(n)` with the default `keep='first'`, applied to
the grouped series. When `n >= len(series)` pandas takes the slow path
`sort_values(ascending=False).head(n)`: `sort_values` argsorts ascending (stable
here: numpy insertion sort on these small arrays) and then reverses the indexer,
so tied values end up in reversed input order. Otherwise the fast path stably
mergesorts the negated values and keeps the first `n`, so tied values keep their
input order. A stable sort's output is unique, so the stable sorts here are modelled by
insertion sort. -/
def nlargest (n : Nat) (s : List (String × Nat)) : List (String × Nat) :=
  if s.length ≤ n then
    ((List.insertionSort (fun a b => a.2 ≤ b.2) s).reverse).take n
  else
    (List.insertionSort (fun a b => b.2 ≤ a.2) s).take n

/-- Embeds `top_10 = data.groupby('pt')['count'].sum().nlargest(10)` (app.py
line 123). -/
def top_10 (data : List EventRecord) : List (String × Nat) :=
  nlargest 10 (ptCounts data)

/-- Outcome of the main analytics block (app.py lines 68-151) for one selection,
abstracting the rendering calls: `noReports` is the `data.empty` early stop of
lines 88-90, `fault` an unhandled exception from computing `idxmax` on an empty
frame, `report` carries the computed KPIs and chart series. -/
inductive DashboardView
  | noReports
  | fault
  | report (total : Nat) (uniqueTerms : Nat) (topTerm : String) (g : GrowthOutcome)
      (topTen : List (String × Nat)) (trend : List (Int × Nat))
deriving DecidableEq, Repr

/-- Embeds the control flow of app.py lines 71-146: filter, stop early when the
selection is empty (lines 88-90), otherwise compute the KPIs and chart series. -/
def renderMain (df : List EventRecord) (drug : String) (y1 y2 : Int) : DashboardView :=
  let data := filterData df drug y1 y2
  if data.isEmpty then .noReports
  else
    match top_event_row data with
    | none => .fault
    | some r =>
        .report (total_events data) (unique_pt data) r.pt (growth data)
          (top_10 data) (yearly_counts data)

/-- Spec-side, for claim C2: the maximum single-row `count` of the selection. -/
def maxRowCount (data : List EventRecord) : Nat :=
  (data.map EventRecord.count).foldr max 0

/-- Claim C8: `filterData` returns exactly the rows whose `drugname` matches the
selection and whose `year` lies in the closed interval `[y1, y2]`, as a subsequence
of the input (input row order preserved). -/
theorem filterData_spec (df : List EventRecord) (drug : String) (y1 y2 : Int) :
    (∀ r, r ∈ filterData df drug y1 y2 ↔
      r ∈ df ∧ r.drugname = drug ∧ y1 ≤ r.year ∧ r.year ≤ y2)
    ∧ List.Sublist (filterData df drug y1 y2) df := by
  constructor
  · intro r
    simp [filterData, rowMask, List.mem_filter, and_assoc]
  · exact List.filter_sublist df

/-- Claim C9: filtering an already-filtered result with the same parameters
returns it unchanged. -/
theorem filterData_idempotent (df : List EventRecord) (drug : String) (y1 y2 : Int) :
    filterData (filterData df drug y1 y2) drug y1 y2 = filterData df drug y1 y2 :=
  List.filter_eq_self.mpr fun _ ha => List.of_mem_filter ha

/-- The year-group keys are exactly the years occurring in the selection. -/
theorem mem_yearKeys {data : List EventRecord} {y : Int} :
    y ∈ yearKeys data ↔ y ∈ data.map EventRecord.year := by
  simp [yearKeys, List.mem_insertionSort, List.mem_dedup]

/-- The year-group keys contain no duplicates. -/
theorem yearKeys_nodup (data : List EventRecord) : (yearKeys data).Nodup :=
  ((List.perm_insertionSort _ _).nodup_iff).mpr (List.nodup_dedup _)

/-- The year-group keys are strictly increasing. -/
theorem yearKeys_sorted_lt (data : List EventRecord) :
    (yearKeys data).Sorted (· < ·) :=
  (List.sorted_insertionSort _ _).lt_of_le (yearKeys_nodup data)

/-- Summing `count` splits across a boolean partition of the rows. -/
theorem total_events_filter_partition (l : List EventRecord) (p : EventRecord → Bool) :
    total_events l
      = ((l.filter p).map EventRecord.count).sum
        + ((l.filter fun r => !p r).map EventRecord.count).sum := by
  induction l with
  | nil => rfl
  | cons a t ih =>
      cases hp : p a <;>
        simp [total_events, List.filter_cons, hp] at ih ⊢ <;> omega

/-- Summing the per-key group totals over a duplicate-free key list covering every
row's year gives the grand total. -/
theorem sum_yearSum_eq (keys : List Int) (l : List EventRecord)
    (hnd : keys.Nodup) (hcov : ∀ r ∈ l, r.year ∈ keys) :
    (keys.map fun y => yearSum l y).sum = total_events l := by
  induction keys generalizing l with
  | nil =>
      have : l = [] := List.eq_nil_iff_forall_not_mem.mpr fun r hr => by
        simpa using hcov r hr
      subst this; rfl
  | cons y ks ih =>
      have hy : y ∉ ks := (List.nodup_cons.mp hnd).1
      have hnd' : ks.Nodup := (List.nodup_cons.mp hnd).2
      have hstep : ∀ y' ∈ ks,
          yearSum l y' = yearSum (l.filter fun r => !(r.year == y)) y' := by
        intro y' hy'
        have hne : y' ≠ y := fun h => hy (h ▸ hy')
        unfold yearSum
        rw [List.filter_filter]
        have hf : List.filter (fun a => a.year == y' && !(a.year == y)) l
            = List.filter (fun r => r.year == y') l := by
          apply List.filter_congr
          intro r _
          cases hr : (r.year == y' : Bool)
          · simp [hr]
          · have hry : r.year = y' := by simpa using hr
            simp [hr, hry, hne]
        rw [hf]
      have hcov' : ∀ r ∈ l.filter fun r => !(r.year == y), r.year ∈ ks := by
        intro r hr
        rcases List.mem_filter.mp hr with ⟨hrl, hry⟩
        have := hcov r hrl
        simp only [List.mem_cons] at this
        rcases this with h | h
        · simp [h] at hry
        · exact h
      have hrec := ih (l.filter fun r => !(r.year == y)) hnd' hcov'
      have hmap : (ks.map fun y' => yearSum l y')
          = ks.map fun y' => yearSum (l.filter fun r => !(r.year == y)) y' :=
        List.map_congr_left hstep
      calc (List.map (fun y' => yearSum l y') (y :: ks)).sum
          = yearSum l y + (ks.map fun y' => yearSum l y').sum := by
            simp
        _ = yearSum l y + total_events (l.filter fun r => !(r.year == y)) := by
            rw [hmap, hrec]
        _ = total_events l := by
            rw [total_events_filter_partition l fun r => r.year == y]
            rfl

/-- Claim C6: the total report count equals the sum of the yearly-series totals. -/
theorem total_events_eq_yearly_sum (data : List EventRecord) :
    total_events data = ((yearly_counts data).map Prod.snd).sum := by
  have h := sum_yearSum_eq (yearKeys data) data (yearKeys_nodup data)
    (fun r hr => mem_yearKeys.mpr (List.mem_map_of_mem _ hr))
  rw [yearly_counts, List.map_map]
  exact h.symm

/-- Claim C7: the yearly series is strictly ascending by year (hence duplicate-free),
each entry pairs a year present in the selection with the summed count of that year's
rows, and an empty selection yields the empty series. -/
theorem yearly_counts_props (data : List EventRecord) :
    (yearly_counts data).Pairwise (fun a b => a.1 < b.1)
    ∧ (∀ e, e ∈ yearly_counts data →
        (∃ r ∈ data, r.year = e.1) ∧ e.2 = yearSum data e.1)
    ∧ (data = [] → yearly_counts data = []) := by
  refine ⟨?_, ?_, ?_⟩
  · have := yearKeys_sorted_lt data
    rw [yearly_counts, List.pairwise_map]
    exact this
  · intro e he
    rw [yearly_counts, List.mem_map] at he
    rcases he with ⟨y, hy, rfl⟩
    have := mem_yearKeys.mp hy
    rw [List.mem_map] at this
    rcases this with ⟨r, hr, hry⟩
    exact ⟨⟨r, hr, hry⟩, rfl⟩
  · rintro rfl; rfl

/-- Witness for C7 at a concrete two-year selection (years supplied out of order). -/
theorem yearly_counts_props_witness :
    (yearly_counts [⟨"d", "t", 2001, 3⟩, ⟨"d", "t", 2000, 4⟩]).Pairwise
        (fun a b => a.1 < b.1)
    ∧ ((∃ r ∈ ([⟨"d", "t", 2001, 3⟩, ⟨"d", "t", 2000, 4⟩] : List EventRecord),
          r.year = 2000)
        ∧ (4 : Nat) = yearSum [⟨"d", "t", 2001, 3⟩, ⟨"d", "t", 2000, 4⟩] 2000)
    ∧ yearly_counts ([] : List EventRecord) = [] :=
  ⟨(yearly_counts_props _).1,
   (yearly_counts_props [⟨"d", "t", 2001, 3⟩, ⟨"d", "t", 2000, 4⟩]).2.1 (2000, 4)
     (by decide),
   (yearly_counts_props []).2.2 rfl⟩

/-- Claim C5: the empty-selection guard runs before any KPI is computed, so the
pipeline never faults on an empty selection: it renders the "no reports" state, and
the empty-frame `idxmax` branch is unreachable for every input. -/
theorem renderMain_empty_safe (df : List EventRecord) (drug : String) (y1 y2 : Int) :
    renderMain df drug y1 y2 ≠ .fault
    ∧ (filterData df drug y1 y2 = [] → renderMain df drug y1 y2 = .noReports) := by
  cases h : filterData df drug y1 y2 with
  | nil => simp [renderMain, h]
  | cons r rs =>
      constructor
      · simp [renderMain, h, top_event_row]
      · intro hcontr
        exact absurd hcontr (List.cons_ne_nil r rs)

/-- Witness for C5: a selection over the empty dataset yields the "no reports"
state and no fault. -/
theorem renderMain_empty_safe_witness :
    renderMain [] "x" 0 0 = .noReports ∧ renderMain [] "x" 0 0 ≠ .fault :=
  ⟨(renderMain_empty_safe [] "x" 0 0).2 rfl, (renderMain_empty_safe [] "x" 0 0).1⟩

/-- Unfolding `maxRowCount` one row at a time. -/
theorem maxRowCount_cons (a : EventRecord) (l : List EventRecord) :
    maxRowCount (a :: l) = max a.count (maxRowCount l) := rfl

/-- The `idxmax` fold keeps its accumulator when no later row beats it. -/
theorem foldl_keep_of_le (rs : List EventRecord) :
    ∀ b : EventRecord, maxRowCount rs ≤ b.count →
      rs.foldl (fun best x => if best.count < x.count then x else best) b = b := by
  induction rs with
  | nil => intro b _; rfl
  | cons x t ih =>
      intro b hle
      rw [maxRowCount_cons] at hle
      obtain ⟨h1, h2⟩ := Nat.max_le.mp hle
      simp only [List.foldl_cons, if_neg (Nat.not_lt.mpr h1)]
      exact ih b h2

/-- The `idxmax` fold computes the first row attaining the maximum count. -/
theorem find?_max_eq_foldl (t : List EventRecord) :
    ∀ b : EventRecord,
      (b :: t).find? (fun r => r.count == max b.count (maxRowCount t))
        = some (t.foldl (fun best x => if best.count < x.count then x else best) b) := by
  induction t with
  | nil =>
      intro b
      simp [List.find?, maxRowCount]
  | cons x t ih =>
      intro b
      rw [maxRowCount_cons]
      by_cases hbx : b.count < x.count
      · have hbV : b.count < max x.count (maxRowCount t) :=
          lt_of_lt_of_le hbx (le_max_left _ _)
        have hV : max b.count (max x.count (maxRowCount t))
            = max x.count (maxRowCount t) := Nat.max_eq_right (le_of_lt hbV)
        rw [hV]
        have hpb : (b.count == max x.count (maxRowCount t)) = false :=
          beq_eq_false_iff_ne.mpr (Nat.ne_of_lt hbV)
        rw [List.find?_cons_of_neg _ (by simp [hpb])]
        simp only [List.foldl_cons, if_pos hbx]
        exact ih x
      · have hxb : x.count ≤ b.count := Nat.not_lt.mp hbx
        have hV : max b.count (max x.count (maxRowCount t))
            = max b.count (maxRowCount t) := by
          rw [← Nat.max_assoc, Nat.max_eq_left hxb]
        rw [hV]
        simp only [List.foldl_cons, if_neg hbx]
        cases hpb : (b.count == max b.count (maxRowCount t)) with
        | true =>
            rw [List.find?_cons_of_pos _ (by simp [hpb])]
            have hMb : maxRowCount t ≤ b.count := by
              have : b.count = max b.count (maxRowCount t) := by simpa using hpb
              exact le_trans (le_max_right _ _) this.symm.le
            rw [foldl_keep_of_le t b hMb]
        | false =>
            have hbV : b.count < max b.count (maxRowCount t) :=
              lt_of_le_of_ne (le_max_left _ _) (by simpa using hpb)
            have hpx : (x.count == max b.count (maxRowCount t)) = false :=
              beq_eq_false_iff_ne.mpr (Nat.ne_of_lt (lt_of_le_of_lt hxb hbV))
            rw [List.find?_cons_of_neg _ (by simp [hpb]),
              List.find?_cons_of_neg _ (by simp [hpx])]
            have hib := ih b
            rw [List.find?_cons_of_neg _ (by simp [hpb])] at hib
            exact hib

/-- Claim C2: `top_event_row` is the first row, in filtered row order, attaining the
maximum single-row `count` (so `top_term` is that row's `preferred_term`; the maximum
is over rows, not over grouped sums). -/
theorem top_event_row_first_max (data : List EventRecord) (h : data ≠ []) :
    top_event_row data = data.find? fun r => r.count == maxRowCount data := by
  cases data with
  | nil => exact absurd rfl h
  | cons b t =>
      calc top_event_row (b :: t)
          = some (t.foldl (fun best x => if best.count < x.count then x else best) b) :=
            rfl
        _ = (b :: t).find? (fun r => r.count == max b.count (maxRowCount t)) :=
            (find?_max_eq_foldl t b).symm
        _ = (b :: t).find? (fun r => r.count == maxRowCount (b :: t)) := by
            rw [maxRowCount_cons]

/-- Witness for C2: with a duplicate maximum count (50 on rows 2 and 3), the first
such row ("Headache") is selected. -/
theorem top_event_row_first_max_witness :
    ([⟨"d", "Nausea", 2022, 10⟩, ⟨"d", "Headache", 2022, 50⟩,
        ⟨"d", "Rash", 2021, 50⟩] : List EventRecord) ≠ []
    ∧ top_event_row [⟨"d", "Nausea", 2022, 10⟩, ⟨"d", "Headache", 2022, 50⟩,
        ⟨"d", "Rash", 2021, 50⟩]
      = List.find?
          (fun r => r.count == maxRowCount [⟨"d", "Nausea", 2022, 10⟩,
            ⟨"d", "Headache", 2022, 50⟩, ⟨"d", "Rash", 2021, 50⟩])
          [⟨"d", "Nausea", 2022, 10⟩, ⟨"d", "Headache", 2022, 50⟩,
            ⟨"d", "Rash", 2021, 50⟩]
    ∧ top_event_row [⟨"d", "Nausea", 2022, 10⟩, ⟨"d", "Headache", 2022, 50⟩,
        ⟨"d", "Rash", 2021, 50⟩] = some ⟨"d", "Headache", 2022, 50⟩ :=
  ⟨by decide, top_event_row_first_max _ (by decide), by decide⟩

/-- The yearly series has one entry per distinct year of the selection. -/
theorem yearly_counts_length (data : List EventRecord) :
    (yearly_counts data).length = ((data.map EventRecord.year).dedup).length := by
  simp [yearly_counts, yearKeys, List.length_insertionSort]

/-- Claim C3: the growth KPI. The series has one entry per distinct year; with fewer
than two distinct years the sentinel `na` ("N/A") is returned (not zero, not an
error); otherwise `iloc[0]`/`iloc[-1]` are the minimum-year and maximum-year entries
of the series, and with a non-zero base the result is
`(last - first) / first * 100`. -/
theorem growth_spec (data : List EventRecord) :
    (yearly_counts data).length = ((data.map EventRecord.year).dedup).length
    ∧ (((data.map EventRecord.year).dedup).length < 2 → growth data = .na)
    ∧ ∀ fe la, (yearly_counts data).head? = some fe →
        (yearly_counts data).getLast? = some la →
        (∀ e ∈ yearly_counts data, fe.1 ≤ e.1 ∧ e.1 ≤ la.1)
        ∧ (fe.2 ≠ 0 → 2 ≤ ((data.map EventRecord.year).dedup).length →
            growth data = .value (((la.2 : ℚ) - (fe.2 : ℚ)) / (fe.2 : ℚ) * 100)) := by
  refine ⟨yearly_counts_length data, ?_, ?_⟩
  · intro hlen
    have : ¬ 1 < (yearly_counts data).length := by
      rw [yearly_counts_length]; omega
    unfold growth
    rw [if_neg this]
  · intro fe la hfe hla
    have hsorted : (yearly_counts data).Pairwise (fun a b => a.1 < b.1) :=
      (yearly_counts_props data).1
    constructor
    · intro e he
      constructor
      · obtain ⟨t, ht⟩ : ∃ t, yearly_counts data = fe :: t := by
          cases hyc : yearly_counts data with
          | nil => rw [hyc] at hfe; exact absurd hfe (by simp)
          | cons a t =>
              rw [hyc] at hfe
              simp at hfe
              exact ⟨t, by rw [hfe]⟩
        rw [ht] at he hsorted
        rcases List.mem_cons.mp he with rfl | het
        · exact le_refl _
        · exact le_of_lt ((List.pairwise_cons.mp hsorted).1 e het)
      · have hfe' : (yearly_counts data).reverse.head? = some la := by
          rw [List.head?_reverse]; exact hla
        have hsorted' : (yearly_counts data).reverse.Pairwise (fun a b => b.1 < a.1) :=
          List.pairwise_reverse.mpr hsorted
        have he' : e ∈ (yearly_counts data).reverse := List.mem_reverse.mpr he
        obtain ⟨t, ht⟩ : ∃ t, (yearly_counts data).reverse = la :: t := by
          cases hyc : (yearly_counts data).reverse with
          | nil => rw [hyc] at hfe'; exact absurd hfe' (by simp)
          | cons a t =>
              rw [hyc] at hfe'
              simp at hfe'
              exact ⟨t, by rw [hfe']⟩
        rw [ht] at he' hsorted'
        rcases List.mem_cons.mp he' with rfl | het
        · exact le_refl _
        · exact le_of_lt ((List.pairwise_cons.mp hsorted').1 e het)
    · intro hnz hlen
      have hcond : 1 < (yearly_counts data).length := by
        rw [yearly_counts_length]; omega
      have hnzq : ¬ ((((yearly_counts data).head?.getD (0, 0)).2 : ℚ)) = 0 := by
        rw [hfe]
        simpa using hnz
      unfold growth
      rw [if_pos hcond, if_neg hnzq, hfe, hla]
      rfl

/-- Witness for C3: a two-year selection gives the growth formula; a one-year
selection gives the sentinel. -/
theorem growth_spec_witness :
    growth [⟨"d", "t", 2000, 10⟩, ⟨"d", "t", 2001, 5⟩]
      = .value ((((5 : Nat) : ℚ) - ((10 : Nat) : ℚ)) / ((10 : Nat) : ℚ) * 100)
    ∧ growth [⟨"d", "t", 1999, 7⟩] = .na :=
  ⟨((growth_spec [⟨"d", "t", 2000, 10⟩, ⟨"d", "t", 2001, 5⟩]).2.2 (2000, 10) (2001, 5)
      (by decide) (by decide)).2 (by decide) (by decide),
   (growth_spec [⟨"d", "t", 1999, 7⟩]).2.1 (by decide)⟩

/-- Claim C1 concerns app.py lines 100-107: the only guard is `len(yearly_counts) > 1`;
a zero-count base year with at least two distinct years reaches the division, and
numpy int64 division by zero produces infinity (with a RuntimeWarning), not the
"N/A" sentinel and not an arithmetic fault. This theorem evaluates the pipeline at
such an input: the result is `posInf`, not `na`. -/
theorem growth_zero_base_gives_infinity :
    growth [⟨"d", "t", 2000, 0⟩, ⟨"d", "t", 2001, 5⟩] = .posInf
    ∧ growth [⟨"d", "t", 2000, 0⟩, ⟨"d", "t", 2001, 5⟩] ≠ .na := by
  decide

/-- The term-group keys are exactly the terms occurring in the selection. -/
theorem mem_ptKeys {data : List EventRecord} {t : String} :
    t ∈ ptKeys data ↔ t ∈ data.map EventRecord.pt := by
  simp [ptKeys, List.mem_insertionSort, List.mem_dedup]

/-- The term-group keys contain no duplicates. -/
theorem ptKeys_nodup (data : List EventRecord) : (ptKeys data).Nodup :=
  ((List.perm_insertionSort _ _).nodup_iff).mpr (List.nodup_dedup _)

/-- The term-group keys are sorted by the lexicographic order. -/
theorem ptKeys_sorted (data : List EventRecord) :
    (ptKeys data).Pairwise (fun a b : String => a.data ≤ b.data) :=
  @List.sorted_insertionSort String (fun a b => a.data ≤ b.data) _
    ⟨fun a b => le_total a.data b.data⟩ ⟨fun _ _ _ h1 h2 => le_trans h1 h2⟩ _

/-- The term-group keys are strictly increasing in `String`'s linear order. -/
theorem ptKeys_sorted_lt (data : List EventRecord) :
    (ptKeys data).Pairwise (fun a b : String => a < b) := by
  have h := (ptKeys_sorted data).and (ptKeys_nodup data)
  refine h.imp ?_
  intro a b hab
  rcases hab with ⟨hle, hne⟩
  have hdne : a.data ≠ b.data := fun hd => hne (String.ext hd)
  exact String.lt_iff_toList_lt.mpr (lt_of_le_of_ne hle hdne)

/-- The grouped term series is strictly increasing in its term component. -/
theorem ptCounts_pairwise_lt (data : List EventRecord) :
    (ptCounts data).Pairwise (fun a b => a.1 < b.1) := by
  rw [ptCounts, List.pairwise_map]
  exact ptKeys_sorted_lt data

/-- Entries of the grouped term series pair an occurring term with its summed count. -/
theorem mem_ptCounts {data : List EventRecord} {e : String × Nat}
    (he : e ∈ ptCounts data) :
    e.1 ∈ data.map EventRecord.pt ∧ e.2 = ptSum data e.1 := by
  rw [ptCounts, List.mem_map] at he
  rcases he with ⟨t, ht, rfl⟩
  exact ⟨mem_ptKeys.mp ht, rfl⟩

/-- Claim C4: the top-10 ranking has at most 10 entries, is sorted non-increasing by
summed count, and every entry pairs a term of the selection with the sum of `count`
over that term's rows (the cross-year grouped aggregate). -/
theorem top_10_spec (data : List EventRecord) :
    (top_10 data).length ≤ 10
    ∧ (top_10 data).Pairwise (fun a b => b.2 ≤ a.2)
    ∧ ∀ e, e ∈ top_10 data → e.1 ∈ data.map EventRecord.pt ∧ e.2 = ptSum data e.1 := by
  refine ⟨?_, ?_, ?_⟩
  · rw [top_10, nlargest]
    split <;> exact List.length_take_le ..
  · rw [top_10, nlargest]
    split
    · apply List.Pairwise.sublist (List.take_sublist ..)
      rw [List.pairwise_reverse]
      exact @List.sorted_insertionSort (String × Nat) (fun a b => a.2 ≤ b.2) _
        ⟨fun a b => Nat.le_total a.2 b.2⟩ ⟨fun _ _ _ h1 h2 => Nat.le_trans h1 h2⟩ _
    · apply List.Pairwise.sublist (List.take_sublist ..)
      exact @List.sorted_insertionSort (String × Nat) (fun a b => b.2 ≤ a.2) _
        ⟨fun a b => Nat.le_total b.2 a.2⟩ ⟨fun _ _ _ h1 h2 => Nat.le_trans h2 h1⟩ _
  · intro e he
    apply mem_ptCounts
    rw [top_10, nlargest] at he
    split at he
    · have h1 := List.take_subset _ _ he
      rw [List.mem_reverse, List.mem_insertionSort] at h1
      exact h1
    · have h1 := List.take_subset _ _ he
      rw [List.mem_insertionSort] at h1
      exact h1

/-- Two distinct members of a duplicate-free list form a pair sublist one way or the
other. -/
theorem pair_sublist_of_ne {α : Type} {l : List α} {a b : α} (hnd : l.Nodup)
    (ha : a ∈ l) (hb : b ∈ l) (hab : a ≠ b) :
    List.Sublist [a, b] l ∨ List.Sublist [b, a] l := by
  induction l with
  | nil => cases ha
  | cons x t ih =>
      rcases List.mem_cons.mp ha with rfl | hat
      · have hbt : b ∈ t := by
          rcases List.mem_cons.mp hb with h | h
          · exact absurd h.symm hab
          · exact h
        exact Or.inl ((List.singleton_sublist.mpr hbt).cons₂ a)
      · rcases List.mem_cons.mp hb with rfl | hbt
        · exact Or.inr ((List.singleton_sublist.mpr hat).cons₂ b)
        · rcases ih (List.nodup_cons.mp hnd).2 hat hbt with h | h
          · exact Or.inl (h.cons x)
          · exact Or.inr (h.cons x)

/-- In a duplicate-free list, a pair cannot occur as a sublist in both orders. -/
theorem not_pair_sublist_swap {α : Type} {l : List α} {a b : α} (hnd : l.Nodup)
    (hab : a ≠ b) (h1 : List.Sublist [a, b] l) : ¬ List.Sublist [b, a] l := by
  induction l with
  | nil => cases h1
  | cons x t ih =>
      intro h2
      rw [List.nodup_cons] at hnd
      cases h1 with
      | cons y h1a =>
          cases h2 with
          | cons z h2a => exact ih hnd.2 h1a h2a
          | cons₂ z h2a => exact hnd.1 (h1a.subset (by simp))
      | cons₂ y h1a =>
          cases h2 with
          | cons z h2a => exact hnd.1 (h2a.subset (by simp))
          | cons₂ z h2a => exact hab rfl

/-- A stable sort whose comparison accepts count-ties keeps tied entries in input
order: sorting a term-strictly-ascending series leaves ties term-ascending. -/
theorem insertionSort_tie_input_order {r : String × Nat → String × Nat → Prop}
    [DecidableRel r] (hr : ∀ a b : String × Nat, a.2 = b.2 → r a b)
    (s : List (String × Nat)) (hs : s.Pairwise fun a b => a.1 < b.1) :
    (List.insertionSort r s).Pairwise fun a b => a.2 = b.2 → a.1 < b.1 := by
  have hnd : s.Nodup := hs.imp fun {a b} h => by
    intro he; subst he; exact lt_irrefl _ h
  have hond : (List.insertionSort r s).Nodup :=
    ((List.perm_insertionSort r s).nodup_iff).mpr hnd
  rw [List.pairwise_iff_forall_sublist]
  intro a b hab heq
  have hane : a ≠ b := by
    intro he; subst he
    have : ([a, a] : List (String × Nat)).Nodup := List.Nodup.sublist hab hond
    simp at this
  have ha : a ∈ s := (List.mem_insertionSort _).mp (hab.subset (by simp))
  have hb : b ∈ s := (List.mem_insertionSort _).mp (hab.subset (by simp))
  rcases pair_sublist_of_ne hnd ha hb hane with h | h
  · exact List.pairwise_iff_forall_sublist.mp hs h
  · have h2 : List.Sublist [b, a] (List.insertionSort r s) :=
      List.pair_sublist_insertionSort (hr b a heq.symm) h
    exact absurd h2 (not_pair_sublist_swap hond hane hab)

/-- Witness for C4 at the spec's worked scenario: the grouped ranking is
[("Headache", 50), ("Nausea", 15)]. -/
theorem top_10_spec_witness :
    (top_10 [⟨"d", "Nausea", 2022, 10⟩, ⟨"d", "Nausea", 2023, 5⟩,
        ⟨"d", "Headache", 2022, 50⟩]).length ≤ 10
    ∧ ("Headache" ∈ List.map EventRecord.pt [⟨"d", "Nausea", 2022, 10⟩,
        ⟨"d", "Nausea", 2023, 5⟩, ⟨"d", "Headache", 2022, 50⟩]
      ∧ (50 : Nat) = ptSum [⟨"d", "Nausea", 2022, 10⟩, ⟨"d", "Nausea", 2023, 5⟩,
        ⟨"d", "Headache", 2022, 50⟩] "Headache")
    ∧ top_10 [⟨"d", "Nausea", 2022, 10⟩, ⟨"d", "Nausea", 2023, 5⟩,
        ⟨"d", "Headache", 2022, 50⟩] = [("Headache", 50), ("Nausea", 15)] :=
  ⟨(top_10_spec _).1,
   (top_10_spec [⟨"d", "Nausea", 2022, 10⟩, ⟨"d", "Nausea", 2023, 5⟩,
      ⟨"d", "Headache", 2022, 50⟩]).2.2 ("Headache", 50) (by decide),
   by decide⟩

/-- Claim C10 counterexample: two terms tied at summed count 5. The grouped series
lists them term-ascending (["A", "B"]), but `nlargest(10)` takes the
`n >= len(series)` path, whose descending sort reverses tied entries, so the
ranking lists "B" before "A" — descending, not ascending, term order ("A" < "B"
in the string order). -/
theorem top_10_tie_counterexample :
    top_10 [⟨"d", "A", 2000, 5⟩, ⟨"d", "B", 2000, 5⟩] = [("B", 5), ("A", 5)]
    ∧ ("A" : String) < "B" := by
  refine ⟨by decide, ?_⟩
  rw [String.lt_iff_toList_lt]
  decide

/-- Claim C10 amended: the ranking is deterministic, but the tie order depends on
which `nlargest` path runs. With more than 10 grouped terms the fast path is a
stable selection, so equal summed counts appear in ascending term order; with at
most 10 grouped terms the `sort_values(ascending=False).head(n)` path reverses the
stable ascending sort, so equal summed counts appear in descending term order. -/
theorem top_10_tie_order (data : List EventRecord) :
    (10 < (ptCounts data).length →
      (top_10 data).Pairwise (fun a b => a.2 = b.2 → a.1 < b.1))
    ∧ ((ptCounts data).length ≤ 10 →
      (top_10 data).Pairwise (fun a b => a.2 = b.2 → b.1 < a.1)) := by
  constructor
  · intro hlen
    rw [top_10, nlargest, if_neg (by omega)]
    apply List.Pairwise.sublist (List.take_sublist ..)
    exact insertionSort_tie_input_order (fun a b h => le_of_eq h.symm) _
      (ptCounts_pairwise_lt data)
  · intro hlen
    rw [top_10, nlargest, if_pos hlen]
    apply List.Pairwise.sublist (List.take_sublist ..)
    rw [List.pairwise_reverse]
    have h := insertionSort_tie_input_order
      (r := fun a b : String × Nat => a.2 ≤ b.2) (fun a b h => le_of_eq h) _
      (ptCounts_pairwise_lt data)
    exact h.imp fun {a b} hab => fun heq => hab heq.symm

/-- Witness for C10 (amended) on the at-most-10-groups path: ties come out in
descending term order. -/
theorem top_10_tie_order_witness :
    (ptCounts [⟨"d", "A", 2000, 5⟩, ⟨"d", "B", 2000, 5⟩]).length ≤ 10
    ∧ (top_10 [⟨"d", "A", 2000, 5⟩, ⟨"d", "B", 2000, 5⟩]).Pairwise
        (fun a b => a.2 = b.2 → b.1 < a.1) :=
  ⟨by decide, (top_10_tie_order _).2 (by decide)⟩

end PharmAI
